import Mathlib

/-!
Verification of the stanza log agent against its specification.

This file gives a shallow embedding, in Lean 4, of the parts of the
repository that the specification claims talk about:

* the per-file reader `ReadToEnd` of the file-tailing input
  (operator/builtin/input/file), including truncation handling, the
  trailing-bytes flush, cancellation, and the too-long-token error;
* the file-input configuration `Build` and `getSplitFunc`;
* the pipeline builder (expansion, namespacing and default-output
  linkage), the plugin parameter schema validation, the severity
  mapping DSL, and the YAML/JSON parameter round-trip, which are
  modelled from the specification where their implementation is not
  part of the available sources.

Machine integers of the Go sources (int64 offsets and sizes) are
modelled as `Nat`: offsets and sizes in the reader are never negative
and never near overflow, so no wrap-around modelling is needed.
Byte strings are modelled as `List Char`.
-/

namespace Stanza

/-! ## The ReadToEnd reader (operator/builtin/input/file/read_to_end.go)

`ReadToEnd` opens a file, stats it, resets the offset on truncation,
seeks to the remembered offset, and scans frames with a
`bufio.Scanner` wrapped around the configured split function.  The
wrapper split function also accumulates every `advance` into the
variable `pos`, which is reported to the messenger after each frame.

The embedding below models the file system as the file content (the
reader never hits an I/O error in the model, matching the claims,
which are about the non-I/O-error paths), the scanner as a function
that applies the split function to the maximal available window of
at most `maxLogSize` bytes, and the context as an optional index of
the cancellation check at which `ctx.Done()` starts to fire: check
index 0 is the check at function entry, check index `i ≥ 1` is the
check at the top of iteration `i` of the scan loop. -/

/-- A `bufio.SplitFunc`: given the currently buffered window and the
at-end-of-file flag, return how many bytes to consume, an optional
token, and an optional error (errors are modelled as opaque codes). -/
def SplitFunc : Type := List Char → Bool → Nat × Option (List Char) × Option Nat

/-- Observable calls made by the reader: messenger updates and
entries written to the output chain. -/
inductive Event where
  | setLastSeenFileSize (n : Nat)
  | setOffset (n : Nat)
  | writeEntry (msg : List Char)
  | finishedReading
  deriving DecidableEq, Repr

/-- Result of the reader: `ok` models a nil return, `failed` models
the descriptive error built from `errors.NewError(desc, suggestion)`
on `bufio.ErrTooLong`, `otherErr` models returning any other scanner
error, `panicked` models the panics of `bufio.Scanner` (split
function advancing beyond its input, or too many empty tokens), and
`fuelOut` marks model-level fuel exhaustion (an execution longer than
the fuel given to the model; it has no Go counterpart). -/
inductive Outcome where
  | ok
  | failed (desc suggestion : String)
  | otherErr (e : Nat)
  | panicked
  | fuelOut
  deriving DecidableEq, Repr

/-- Whether the context is done at cancellation check `idx`.
`cancelAt = some k` means `ctx.Done()` fires at every check with
index `≥ k`; `none` means the context is never cancelled. -/
def ctxDone (cancelAt : Option Nat) (idx : Nat) : Bool :=
  match cancelAt with
  | none => false
  | some k => decide (k ≤ idx)

/-- Outcome of one `scanner.Scan()` call.  `pos'` is the value after
the call of the `pos` accumulator of the wrapping split function (the
scanner position plus every `advance` returned by the split function,
including an `advance` returned together with an error). -/
inductive ScanOut where
  | token (t : List Char) (pos' : Nat) (empties' : Nat)
  | eofOut (pos' : Nat)
  | tooLongOut (pos' : Nat)
  | splitErrOut (e : Nat) (pos' : Nat)
  | panickedOut (pos' : Nat)
  deriving DecidableEq, Repr

/-- One `scanner.Scan()` call of `bufio.Scanner`, at position `pos`
with `empties` consecutive empty tokens seen at EOF so far.  The
scanner is modelled as calling the split function on the maximal
window of at most `maxLog` remaining bytes, with `atEOF` set when
the whole rest of the file fits in the buffer:

* a split error ends the scan with that error;
* an `advance` beyond the window is the "SplitFunc returns advance
  count beyond input" panic;
* a token is returned to the caller; a token that does not advance
  at EOF increments the empty-token counter, and the 101st such
  token in a row is the "too many empty tokens" panic
  (`maxConsecutiveEmptyReads = 100`);
* no token and no advance means the split function needs more data:
  at EOF the scan ends cleanly, otherwise the buffer is already at
  its maximal size `maxLog` and the scan fails with
  `bufio.ErrTooLong`;
* no token with a positive advance skips the advanced bytes and
  retries. -/
def scanOnce (content : List Char) (split : SplitFunc) (maxLog : Nat) :
    Nat → Nat → Nat → Option ScanOut
  | 0, _, _ => none
  | fuel + 1, pos, empties =>
    let window := (content.drop pos).take maxLog
    let atEOF : Bool := decide (content.length - pos ≤ maxLog)
    match split window atEOF with
    | (adv, tok, errc) =>
      if adv > window.length then some (.panickedOut (pos + adv))
      else
        match errc with
        | some e => some (.splitErrOut e (pos + adv))
        | none =>
          match tok with
          | some t =>
            if atEOF && adv == 0 then
              if empties + 1 > 100 then some (.panickedOut pos)
              else some (.token t pos (empties + 1))
            else some (.token t (pos + adv) 0)
          | none =>
            if adv == 0 then
              (if atEOF then some (.eofOut pos) else some (.tooLongOut pos))
            else scanOnce content split maxLog fuel (pos + adv) empties

/-- The scan loop of `ReadToEnd`: check the context, call
`scanner.Scan()`, and on success write the entry and report the new
offset; on failure convert `bufio.ErrTooLong` into the descriptive
error and return any other scanner error as is.  Returns the events
emitted by the loop, the final value of the `pos` accumulator and
the outcome.  `checkIdx` numbers the cancellation checks (the check
at the top of the first iteration has index 1). -/
def scanLoop (content : List Char) (split : SplitFunc) (maxLog : Nat)
    (cancelAt : Option Nat) :
    Nat → Nat → Nat → Nat → List Event × Nat × Outcome
  | 0, pos, _, _ => ([], pos, .fuelOut)
  | fuel + 1, pos, checkIdx, empties =>
    if ctxDone cancelAt checkIdx then ([], pos, .ok)
    else
      match scanOnce content split maxLog (content.length + 1) pos empties with
      | none => ([], pos, .fuelOut)
      | some (.token t pos' empties') =>
        let rest := scanLoop content split maxLog cancelAt fuel pos' (checkIdx + 1) empties'
        (Event.writeEntry t :: Event.setOffset pos' :: rest.1, rest.2.1, rest.2.2)
      | some (.eofOut pos') => ([], pos', .ok)
      | some (.tooLongOut pos') =>
        ([], pos',
          .failed "log entry too large"
            "increase max_log_size or ensure that multiline regex patterns terminate")
      | some (.splitErrOut e pos') => ([], pos', .otherErr e)
      | some (.panickedOut pos') => ([], pos', .panicked)

/-- The complete observable behaviour of one `ReadToEnd` call:
the ordered events, the returned outcome, whether the file was
opened, the offset the scan effectively started from, the final
value of the `pos` accumulator, and the trailing entry flushed by
the deferred reader, if any. -/
structure RunResult where
  events : List Event
  outcome : Outcome
  opened : Bool
  eff : Nat
  finalPos : Nat
  trailingEntry : Option (List Char)
  deriving DecidableEq, Repr

/-- `ReadToEnd(ctx, path, startOffset, lastSeenFileSize, messenger,
splitFunc, pathField, inputPlugin, maxLogSize)`:

1. defer `messenger.FinishedReading()` (runs last of the defers);
2. return nil if the context is already done;
3. open and stat the file, report the stat size via
   `messenger.SetLastSeenFileSize`;
4. if the size is smaller than the remembered offset, reset the
   offset to 0 and report it via `messenger.SetOffset(0)`;
5. scan from the (possibly reset) offset;
6. a deferred function then flushes the remaining bytes of the file
   as one final entry exactly when the scan consumed nothing
   (`pos == startOffset`), the position is before the end of the
   file (`pos < stat.Size()`) and the file did not grow since the
   previous reader exited (`lastSeenFileSize == stat.Size()`),
   reporting the new offset after the flush.

Stat, seek and read errors of the Go code are not modelled: the
model file is always readable. -/
def readToEnd (fuel : Nat) (content : List Char) (startOffset lastSeen : Nat)
    (split : SplitFunc) (maxLog : Nat) (cancelAt : Option Nat) : RunResult :=
  if ctxDone cancelAt 0 then
    ⟨[Event.finishedReading], Outcome.ok, false, startOffset, startOffset, none⟩
  else
    let size := content.length
    let eff := if size < startOffset then 0 else startOffset
    let resetEvs : List Event := if size < startOffset then [Event.setOffset 0] else []
    let s := scanLoop content split maxLog cancelAt fuel eff 1 0
    let finalPos := s.2.1
    let trailingEntry : Option (List Char) :=
      if finalPos < size ∧ finalPos = eff ∧ lastSeen = size then
        some (content.drop finalPos)
      else none
    let trailEvs : List Event :=
      match trailingEntry with
      | some msg => [Event.writeEntry msg, Event.setOffset size]
      | none => []
    ⟨Event.setLastSeenFileSize size :: (resetEvs ++ s.1 ++ trailEvs ++ [Event.finishedReading]),
      s.2.2, true, eff, finalPos, trailingEntry⟩

/-- A simple concrete split function used to instantiate theorems: at
end of input it emits the whole remaining data as one token, and
otherwise asks for more data. -/
def splitWhole : SplitFunc := fun data atEOF =>
  if atEOF && !(data.isEmpty) then (data.length, some data, none) else (0, none, none)

/-- A split function that always asks for more data; on a non-empty
file it makes the scanner fail with `bufio.ErrTooLong` as soon as
the window is full. -/
def splitNever : SplitFunc := fun _ _ => (0, none, none)

/-! ## File input configuration (operator/builtin/input/file/file.go)

`InputConfig.Build` validates the configuration and constructs the
`InputOperator`.  External collaborators are abstracted as boolean
oracles passed to the model: `globOk` is whether
`filepath.Match(pattern, "matchstring")` succeeds (the Go standard
library glob syntax check), `ianaOk` is whether
`ianaindex.IANA.Encoding` resolves a non-nil encoding, `regexOk` is
whether `regexp.Compile` succeeds, and `helperOk` is whether the
embedded `helper.InputConfig.Build` succeeds. -/

/-- The `multiline` block of the file input configuration. -/
structure MultilineConfig where
  lineStartPattern : String
  lineEndPattern : String
  deriving DecidableEq, Repr

/-- The file input configuration.  `include` and `exclude` of the Go
struct are named `includes` and `excludes` because `include` is a
Lean keyword; `pollInterval` is in milliseconds. -/
structure InputConfig where
  includes : List String
  excludes : List String
  pollInterval : Nat
  multiline : Option MultilineConfig
  includeFileName : Bool
  includeFilePath : Bool
  startAt : String
  maxLogSize : Nat
  encoding : String
  deriving DecidableEq, Repr

/-- `NewInputConfig` default values. -/
def NewInputConfig : InputConfig :=
  { includes := []
    excludes := []
    pollInterval := 200
    multiline := none
    includeFileName := true
    includeFilePath := false
    startAt := "end"
    maxLogSize := 1024 * 1024
    encoding := "nop" }

/-- The encoding selected by `lookupEncoding`. -/
inductive EncodingKind where
  | nopEnc
  | utf8Enc
  | utf16LEEnc
  | ianaEnc (name : String)
  deriving DecidableEq, Repr

/-- ASCII lowercasing of one character, as `strings.ToLower` acts on
the ASCII encoding names of the override table. -/
def lowerChar (c : Char) : Char :=
  if 'A' ≤ c ∧ c ≤ 'Z' then Char.ofNat (c.toNat + 32) else c

/-- ASCII lowercasing of a string. -/
def lowerString (s : String) : String :=
  String.mk (s.data.map lowerChar)

/-- `lookupEncoding`: the override table is consulted first on the
lowercased name, then `ianaindex.IANA`.  The "no charmap defined"
case of a nil IANA result is folded into the `ianaOk` oracle. -/
def lookupEncoding (ianaOk : String → Bool) (enc : String) : Except String EncodingKind :=
  let low := lowerString enc
  if low = "utf-16" ∨ low = "utf16" then .ok .utf16LEEnc
  else if low = "utf8" ∨ low = "ascii" ∨ low = "us-ascii" then .ok .utf8Enc
  else if low = "nop" ∨ low = "" then .ok .nopEnc
  else if ianaOk enc then .ok (.ianaEnc enc)
  else .error ("unsupported encoding " ++ enc)

/-- The split function selected by `getSplitFunc`. -/
inductive SplitKind where
  | newline (enc : EncodingKind)
  | lineStart (pattern : String)
  | lineEnd (pattern : String)
  deriving DecidableEq, Repr

/-- `getSplitFunc`: without a `multiline` block the newline split
function is used; with one, exactly one of `line_start_pattern` and
`line_end_pattern` must be set, and the set pattern is compiled with
a `(?m)` prefix. -/
def getSplitFunc (regexOk : String → Bool) (enc : EncodingKind)
    (c : InputConfig) : Except String SplitKind :=
  match c.multiline with
  | none => .ok (.newline enc)
  | some m =>
    let endPattern := m.lineEndPattern
    let startPattern := m.lineStartPattern
    if endPattern ≠ "" ∧ startPattern ≠ "" then
      .error "only one of line_start_pattern or line_end_pattern can be set"
    else if endPattern = "" ∧ startPattern = "" then
      .error "one of line_start_pattern or line_end_pattern must be set"
    else if endPattern ≠ "" then
      if regexOk ("(?m)" ++ endPattern) then .ok (.lineEnd endPattern)
      else .error "compile line end regex"
    else
      if regexOk ("(?m)" ++ startPattern) then .ok (.lineStart startPattern)
      else .error "compile line start regex"

/-- The fields of the built `InputOperator` that the configuration
determines. -/
structure InputOperator where
  includes : List String
  excludes : List String
  splitKind : SplitKind
  pollInterval : Nat
  filePathField : Option String
  fileNameField : Option String
  fingerprintBytes : Nat
  startAtBeginning : Bool
  encoding : EncodingKind
  maxLogSize : Nat
  deriving DecidableEq, Repr

/-- `InputConfig.Build`, in source order: embedded input config,
non-empty `include`, include globs parse, exclude globs parse,
encoding lookup, split function, `start_at`, then the operator is
assembled (label fields are `file_name` and `file_path` when the
corresponding flags are set, fingerprinting uses 1000 bytes). -/
def buildInputConfig (helperOk : Bool) (globOk ianaOk regexOk : String → Bool)
    (c : InputConfig) : Except String InputOperator :=
  if ¬helperOk then .error "build embedded input config"
  else if c.includes.isEmpty then .error "required argument include is empty"
  else if ¬(c.includes.all globOk) then .error "parse include glob"
  else if ¬(c.excludes.all globOk) then .error "parse exclude glob"
  else
    match lookupEncoding ianaOk c.encoding with
    | .error e => .error e
    | .ok enc =>
      match getSplitFunc regexOk enc c with
      | .error e => .error e
      | .ok sk =>
        match (match c.startAt with
               | "beginning" => some true
               | "end" => some false
               | _ => none) with
        | none => .error ("invalid start_at location " ++ c.startAt)
        | some b =>
          .ok
            { includes := c.includes
              excludes := c.excludes
              splitKind := sk
              pollInterval := c.pollInterval
              filePathField := if c.includeFilePath then some "file_path" else none
              fileNameField := if c.includeFileName then some "file_name" else none
              fingerprintBytes := 1000
              startAtBeginning := b
              encoding := enc
              maxLogSize := c.maxLogSize }

/-! ## Severity mapping DSL

The severity parser implementation is not part of the available
sources (only its tests are), so the DSL is modelled from the
specification, section 4.6, corroborated by the test table of
`TestSeverityParser`. -/

/-- Modelled from the spec: a scalar matcher value of the severity
mapping, either a string (compared case-insensitively) or an
integer.  Byte-sequence scalars are represented by their string. -/
inductive SevScalar where
  | sstr (s : String)
  | sint (n : Int)
  deriving DecidableEq, Repr

/-- Modelled from the spec: one matcher of the severity mapping.
`range` is a `{min, max}` mapping, `nxx n` is the shorthand `"Nxx"`
for the numeric range `[n*100, n*100+99]`. -/
inductive SevMatcher where
  | scalar (v : SevScalar)
  | anyOf (vs : List SevScalar)
  | range (lo hi : Int)
  | nxx (n : Nat)
  deriving DecidableEq, Repr

/-- A sample value handed to the severity mapping: an integer or a
string. -/
inductive Sample where
  | ints (n : Int)
  | strs (s : String)
  deriving DecidableEq, Repr

/-- The numeric value of a decimal digit character, if it is one. -/
def digitVal (c : Char) : Option Nat :=
  if '0' ≤ c ∧ c ≤ '9' then some (c.toNat - 48) else none

/-- Parse a non-empty all-digit character list as a natural number. -/
def digitsToNat : List Char → Option Nat
  | [] => none
  | cs => cs.foldl (fun acc c =>
      match acc, digitVal c with
      | some a, some d => some (10 * a + d)
      | _, _ => none) (some 0)

/-- Modelled from the spec: the integer value of a string sample, as
`strconv` would parse it (an optional minus sign and decimal
digits). -/
def strToInt (s : String) : Option Int :=
  match s.data with
  | '-' :: rest => (digitsToNat rest).map (fun n => -(n : Int))
  | cs => (digitsToNat cs).map (fun n => (n : Int))

/-- The numeric value of a sample, if any: integers as themselves,
strings through decimal parsing. -/
def sampleNum : Sample → Option Int
  | .ints n => some n
  | .strs s => strToInt s

/-- Case-insensitive ASCII string equality, modelling the
case-insensitive string comparison of the severity mapping. -/
def strCaseEq (a b : String) : Bool :=
  lowerString a == lowerString b

/-- Modelled from the spec: whether a scalar matcher hits a sample.
Strings compare case-insensitively to string samples; integer
scalars compare to integer samples. -/
def scalarHit : SevScalar → Sample → Bool
  | .sstr t, .strs s => strCaseEq t s
  | .sint n, .ints m => n == m
  | _, _ => false

/-- Modelled from the spec: whether a matcher hits a sample.  A
`{min, max}` range is inclusive, and `min > max` is silently
normalized by swapping; `"Nxx"` hits numeric values in
`[n*100, n*100+99]`; both numeric matchers also hit string samples
holding a decimal number. -/
def matcherHit : SevMatcher → Sample → Bool
  | .scalar v, s => scalarHit v s
  | .anyOf vs, s => vs.any (fun v => scalarHit v s)
  | .range a b, s =>
    match sampleNum s with
    | some v => decide (min a b ≤ v) && decide (v ≤ max a b)
    | none => false
  | .nxx n, s =>
    match sampleNum s with
    | some v => decide ((n : Int) * 100 ≤ v) && decide (v ≤ (n : Int) * 100 + 99)
    | none => false

/-- Modelled from the spec: the shorthand matcher strings.  A string
of the form `"Nxx"` with `N` a digit between 1 and 5 denotes the
range `[N*100, N*100+99]`. -/
def parseNxx (s : String) : Option Nat :=
  match s.data with
  | [d, 'x', 'x'] =>
    if 49 ≤ d.toNat ∧ d.toNat ≤ 53 then some (d.toNat - 48) else none
  | _ => none

/-- Modelled from the spec: severity lookup.  The sample is compared
against every matcher of the mapping in order; the first hit selects
the mapped severity, and a miss yields `Default = 0`. -/
def sevLookup (mapping : List (Nat × SevMatcher)) (s : Sample) : Nat :=
  match mapping.find? (fun p => matcherHit p.2 s) with
  | some p => p.1
  | none => 0

/-! ## Plugin parameter schema validation

The plugin parameter validation code is not part of the available
sources (only the `TestPluginMetadata` table is), so it is modelled
from the specification, section 4.2, corroborated by the test
expectations. -/

/-- Modelled from the spec: the declared type of a plugin
parameter. -/
inductive ParamType where
  | tstring
  | tstrings
  | tint
  | tbool
  | tenum
  deriving DecidableEq, Repr

/-- Modelled from the spec: a YAML value usable as a parameter
default.  `pvother` stands for any value of none of the supported
shapes (such as the empty mapping of the `default_invalid` test). -/
inductive PValue where
  | pvstr (s : String)
  | pvint (n : Int)
  | pvbool (b : Bool)
  | pvstrs (l : List String)
  | pvother
  deriving DecidableEq, Repr

/-- Modelled from the spec: one plugin parameter of the schema, with
its `required` flag, declared type, optional default and, for enums,
the `valid_values` list. -/
structure PluginParameter where
  required : Bool
  ptype : ParamType
  dflt : Option PValue
  validValues : List String
  deriving DecidableEq, Repr

/-- Modelled from the spec: whether a default value matches the
declared parameter type; an enum default must moreover be a member
of `valid_values`. -/
def defaultTypeOk (t : ParamType) (validValues : List String) : PValue → Bool
  | .pvstr s =>
    match t with
    | .tstring => true
    | .tenum => validValues.contains s
    | _ => false
  | .pvint _ => t == .tint
  | .pvbool _ => t == .tbool
  | .pvstrs _ => t == .tstrings
  | .pvother => false

/-- Modelled from the spec: validation of one plugin parameter.  An
enum must carry `valid_values` and only enums may; a required
parameter may not carry a default; a default must match the declared
type (with enum membership). -/
def validateParameter (p : PluginParameter) : Except String Unit :=
  if p.ptype = .tenum ∧ p.validValues = [] then
    .error "enum parameter must specify valid_values"
  else if p.ptype ≠ .tenum ∧ p.validValues ≠ [] then
    .error "only enum parameters can specify valid_values"
  else
    match p.dflt with
    | none => .ok ()
    | some d =>
      if p.required then .error "required parameter cannot have a default"
      else if ¬defaultTypeOk p.ptype p.validValues d then
        .error "default value does not match the parameter type"
      else .ok ()

/-! ## Pipeline builder: expansion, namespacing, default outputs

The pipeline builder (`Config.buildOperatorConfigs` and the `Params`
helpers) is not part of the available sources (only
`pipeline/config_test.go` is), so the build steps are modelled from
the specification, section 4.3 steps 1 to 3, and section 4.2 for the
`{{ .output }}` template placeholder. -/

/-- Modelled from the spec: one entry of the pipeline configuration,
with its `id`, its `type` and its explicit `output` references (the
empty list meaning no `output` key). -/
structure RawParams where
  id : String
  typ : String
  output : List String
  deriving DecidableEq, Repr

/-- Modelled from the spec: the `output` of a config inside a plugin
body: absent, the `{{ .output }}` template placeholder, or explicit
references. -/
inductive ChildOut where
  | noOut
  | templateOut
  | explicitOut (outs : List String)
  deriving DecidableEq, Repr

/-- Modelled from the spec: one config of a plugin body. -/
structure PluginChild where
  id : String
  typ : String
  out : ChildOut
  deriving DecidableEq, Repr

/-- A plugin registry: plugin type name to plugin body. -/
def PluginRegistry : Type := List (String × List PluginChild)

/-- A fully namespaced operator config produced by the builder. -/
structure BuiltConfig where
  id : String
  typ : String
  outputs : List String
  deriving DecidableEq, Repr

/-- Modelled from the spec (section 4.3 step 3, top level): the
downstream of the config at index `i` of the top-level sequence when
it declares no `output`: the next config of the sequence, namespaced
under `$`, or the pipeline-level default output if the config is
last and a default was provided. -/
def topNext (cfgs : List RawParams) (defaultOut : Option String) (i : Nat) :
    List String :=
  match (cfgs.drop (i + 1)).head? with
  | some nxt => ["$." ++ nxt.id]
  | none =>
    match defaultOut with
    | some d => [d]
    | none => []

/-- Modelled from the spec (sections 4.2 and 4.3): the downstream
list of a plugin instance, which is what `{{ .output }}` expands to
inside its body: the explicit `output` of the instance namespaced
under `$`, or the default linkage of the instance. -/
def instanceDownstream (cfgs : List RawParams) (defaultOut : Option String)
    (i : Nat) (c : RawParams) : List String :=
  match c.output with
  | [] => topNext cfgs defaultOut i
  | outs => outs.map (fun o => "$." ++ o)

/-- Modelled from the spec (section 4.3 step 2): an explicit output
reference of a plugin-body config is rewritten into the plugin
namespace unless it already points outside, that is, matches a
top-level ID. -/
def namespaceChildOut (topIds : List String) (pid : String) (o : String) : String :=
  if topIds.contains o then "$." ++ o else "$." ++ pid ++ "." ++ o

/-- Modelled from the spec (section 4.3 steps 1 to 3): expansion of
the config list.  A config whose `type` is registered as a plugin is
replaced in place by its body, namespaced `$.<plugin_id>.<child_id>`;
a body config with the `{{ .output }}` placeholder receives the
instance downstream; a body config without `output` that is not a
sink receives the next config of the body, or, when last in the
body, the next config of the parent sequence or the pipeline
default; a top-level non-plugin config is namespaced `$.<id>` and
receives its explicit outputs namespaced under `$`, or the default
linkage when it has none and is not a sink. -/
def buildConfigsModel (reg : PluginRegistry) (isSink : String → Bool)
    (defaultOut : Option String) (cfgs : List RawParams) : List BuiltConfig :=
  let topIds := cfgs.map (fun c => c.id)
  (cfgs.enum.map (fun ci =>
    let i := ci.1
    let c := ci.2
    match reg.lookup c.typ with
    | some children =>
      children.enum.map (fun chj =>
        let j := chj.1
        let ch := chj.2
        let outs :=
          match ch.out with
          | .templateOut => instanceDownstream cfgs defaultOut i c
          | .explicitOut os => os.map (namespaceChildOut topIds c.id)
          | .noOut =>
            if isSink ch.typ then []
            else
              match (children.drop (j + 1)).head? with
              | some nxt => ["$." ++ c.id ++ "." ++ nxt.id]
              | none => topNext cfgs defaultOut i
        BuiltConfig.mk ("$." ++ c.id ++ "." ++ ch.id) ch.typ outs)
    | none =>
      [BuiltConfig.mk ("$." ++ c.id) c.typ
        (match c.output with
         | [] => if isSink c.typ then [] else topNext cfgs defaultOut i
         | outs => outs.map (fun o => "$." ++ o))])).flatten

/-- The edges declared by a list of built configs. -/
def edgesOf (l : List BuiltConfig) : List (String × String) :=
  l.flatMap (fun b => b.outputs.map (fun o => (b.id, o)))

/-- The registry of the C5 scenario: a plugin expanding to two
generators whose `output` is the `{{ .output }}` placeholder, as in
`TestBuildPipelineDefaultOutputInPlugin`. -/
def c5Registry : PluginRegistry :=
  [("plugin",
    [⟨"gen1", "generate_input", .templateOut⟩,
     ⟨"gen2", "generate_input", .templateOut⟩])]

/-- The registry of the C5 counterexample: the same plugin body but
with no `output` key on the generators. -/
def c5RegistryNoOut : PluginRegistry :=
  [("plugin",
    [⟨"gen1", "generate_input", .noOut⟩,
     ⟨"gen2", "generate_input", .noOut⟩])]

/-- The sink oracle of the C5 scenario: `drop_output` is the only
sink. -/
def c5IsSink : String → Bool := fun t => t == "drop_output"

/-- The top-level config of the C5 scenario: the plugin instance
`my_plugin` followed by the sibling `my_drop`. -/
def c5Config : List RawParams :=
  [⟨"my_plugin", "plugin", []⟩, ⟨"my_drop", "drop_output", []⟩]

/-! ## Parameter maps and the YAML to JSON to YAML round-trip

The round-trip property (spec section 8, property 1, and
`TestMultiRoundtripParams`) runs parameter maps through
`gopkg.in/yaml.v2` and `encoding/json`, which are external to the
repository, and through `Params.UnmarshalYAML` and `cleanValue`,
which are not part of the available sources.  The serializers are
therefore modelled from the spec: deterministic emitters for the two
formats (JSON, and YAML in flow style, differing by the padding
after separators) together with their parsers, over the value domain
the property names: strings, ints, bools, nested mappings and
sequences thereof. -/

mutual
/-- Modelled from the spec: a parameter value, the domain of the
round-trip property.  Strings are kept as character lists. -/
inductive JVal where
  | jstr (s : List Char)
  | jint (n : Int)
  | jbool (b : Bool)
  | jmap (ms : JMembers)
  | jarr (es : JElems)
  deriving DecidableEq, Repr
/-- The members of a parameter mapping, in document order. -/
inductive JMembers where
  | mnil
  | mcons (k : List Char) (v : JVal) (rest : JMembers)
  deriving DecidableEq, Repr
/-- The elements of a parameter sequence, in document order. -/
inductive JElems where
  | enil
  | econs (v : JVal) (rest : JElems)
  deriving DecidableEq, Repr
end

/-- Whether a character is a decimal digit. -/
def isDigitCh (c : Char) : Bool :=
  decide (48 ≤ c.toNat) && decide (c.toNat ≤ 57)

/-- Whether a list is empty or starts with a non-digit: where parsing
of a number emitted before the list will stop. -/
def headNotDigit : List Char → Bool
  | [] => true
  | c :: _ => !isDigitCh c

/-- Whether a list consists of padding (spaces) only. -/
def padOk (pad : List Char) : Bool :=
  pad.all (fun c => c == ' ')

/-- String body escaping: the quote and the backslash are prefixed by
a backslash, every other character stands for itself. -/
def escapeChars : List Char → List Char
  | [] => []
  | c :: r =>
    if c = '"' ∨ c = '\\' then '\\' :: c :: escapeChars r
    else c :: escapeChars r

/-- The digit character of a digit value. -/
def digitToChar : Nat → Char
  | 0 => '0'
  | 1 => '1'
  | 2 => '2'
  | 3 => '3'
  | 4 => '4'
  | 5 => '5'
  | 6 => '6'
  | 7 => '7'
  | 8 => '8'
  | _ => '9'

/-- The digit value of a digit character. -/
def charToDigit (c : Char) : Nat :=
  c.toNat - 48

/-- The decimal digit characters of a natural number, most
significant first. -/
def natDigits (n : Nat) : List Char :=
  if n = 0 then ['0'] else ((Nat.digits 10 n).reverse).map digitToChar

/-- The decimal representation of an integer. -/
def emitInt (n : Int) : List Char :=
  if n < 0 then '-' :: natDigits n.natAbs else natDigits n.toNat

mutual
/-- The canonical document of a value.  `pad` is inserted after the
colon of a mapping member and after every comma: `[]` gives the JSON
document, `[' ']` the flow-style YAML document. -/
def emitV (pad : List Char) : JVal → List Char
  | .jstr s => '"' :: (escapeChars s ++ ['"'])
  | .jint n => emitInt n
  | .jbool true => ['t', 'r', 'u', 'e']
  | .jbool false => ['f', 'a', 'l', 's', 'e']
  | .jmap ms => '{' :: emitMems pad ms
  | .jarr es => '[' :: emitElems pad es
/-- The members of a mapping after the opening brace, including the
closing brace. -/
def emitMems (pad : List Char) : JMembers → List Char
  | .mnil => ['}']
  | .mcons k v r =>
    '"' :: (escapeChars k ++ '"' :: ':' :: (pad ++ emitV pad v ++ emitMemsTail pad r))
/-- The members of a mapping after the first member, including the
closing brace. -/
def emitMemsTail (pad : List Char) : JMembers → List Char
  | .mnil => ['}']
  | .mcons k v r =>
    ',' :: (pad ++
      ('"' :: (escapeChars k ++ '"' :: ':' :: (pad ++ emitV pad v ++ emitMemsTail pad r))))
/-- The elements of a sequence after the opening bracket, including
the closing bracket. -/
def emitElems (pad : List Char) : JElems → List Char
  | .enil => [']']
  | .econs v r => emitV pad v ++ emitElemsTail pad r
/-- The elements of a sequence after the first element, including the
closing bracket. -/
def emitElemsTail (pad : List Char) : JElems → List Char
  | .enil => [']']
  | .econs v r => ',' :: (pad ++ emitV pad v ++ emitElemsTail pad r)
end

/-- Drop leading spaces. -/
def skipSpaces : List Char → List Char
  | [] => []
  | c :: r => if c = ' ' then skipSpaces r else c :: r

/-- Parse a string body up to the closing quote, undoing the
escaping. -/
def parseStrB : List Char → Option (List Char × List Char)
  | [] => none
  | c :: rest =>
    if c = '"' then some ([], rest)
    else if c = '\\' then
      match rest with
      | [] => none
      | d :: rest2 => (parseStrB rest2).map (fun p => (d :: p.1, p.2))
    else (parseStrB rest).map (fun p => (c :: p.1, p.2))

/-- Split the longest digit run off the front of a list. -/
def takeDigits : List Char → List Char × List Char
  | [] => ([], [])
  | c :: rest =>
    if isDigitCh c then
      let p := takeDigits rest
      (c :: p.1, p.2)
    else ([], c :: rest)

/-- The natural number denoted by a most-significant-first digit
character run. -/
def charsToNat (ds : List Char) : Nat :=
  ds.foldl (fun a c => 10 * a + charToDigit c) 0

mutual
/-- Parse a value: skip padding, then dispatch on the first
character; strings, mappings, sequences, the two boolean literals,
and signed or unsigned decimal integers. -/
def parseV : Nat → List Char → Option (JVal × List Char)
  | 0, _ => none
  | fuel + 1, cs =>
    match skipSpaces cs with
    | [] => none
    | c :: r =>
      if c = '"' then
        match parseStrB r with
        | some (s, r1) => some (.jstr s, r1)
        | none => none
      else if c = '{' then
        match parseMems fuel r with
        | some (ms, r1) => some (.jmap ms, r1)
        | none => none
      else if c = '[' then
        match parseElems fuel r with
        | some (es, r1) => some (.jarr es, r1)
        | none => none
      else if c = 't' then
        match r with
        | 'r' :: 'u' :: 'e' :: r1 => some (.jbool true, r1)
        | _ => none
      else if c = 'f' then
        match r with
        | 'a' :: 'l' :: 's' :: 'e' :: r1 => some (.jbool false, r1)
        | _ => none
      else if c = '-' then
        match takeDigits r with
        | ([], _) => none
        | (ds, r1) => some (.jint (-(charsToNat ds : Int)), r1)
      else if isDigitCh c then
        match takeDigits (c :: r) with
        | (ds, r1) => some (.jint ((charsToNat ds : Int)), r1)
      else none
/-- Parse the members of a mapping after the opening brace. -/
def parseMems : Nat → List Char → Option (JMembers × List Char)
  | 0, _ => none
  | fuel + 1, cs =>
    match cs with
    | [] => none
    | c :: r =>
      if c = '}' then some (.mnil, r)
      else if c = '"' then
        match parseStrB r with
        | some (k, r1) =>
          match r1 with
          | ':' :: r2 =>
            match parseV fuel r2 with
            | some (v, r3) =>
              match parseMemsTail fuel r3 with
              | some (ms, r4) => some (.mcons k v ms, r4)
              | none => none
            | none => none
          | _ => none
        | none => none
      else none
/-- Parse the members of a mapping after the first member. -/
def parseMemsTail : Nat → List Char → Option (JMembers × List Char)
  | 0, _ => none
  | fuel + 1, cs =>
    match cs with
    | [] => none
    | c :: r =>
      if c = '}' then some (.mnil, r)
      else if c = ',' then
        match skipSpaces r with
        | c0 :: r0 =>
          if c0 = '"' then
            match parseStrB r0 with
            | some (k, r1) =>
              match r1 with
              | ':' :: r2 =>
                match parseV fuel r2 with
                | some (v, r3) =>
                  match parseMemsTail fuel r3 with
                  | some (ms, r4) => some (.mcons k v ms, r4)
                  | none => none
                | none => none
              | _ => none
            | none => none
          else none
        | [] => none
      else none
/-- Parse the elements of a sequence after the opening bracket. -/
def parseElems : Nat → List Char → Option (JElems × List Char)
  | 0, _ => none
  | fuel + 1, cs =>
    match cs with
    | [] => none
    | c :: r =>
      if c = ']' then some (.enil, r)
      else
        match parseV fuel (c :: r) with
        | some (v, r1) =>
          match parseElemsTail fuel r1 with
          | some (es, r2) => some (.econs v es, r2)
          | none => none
        | none => none
/-- Parse the elements of a sequence after the first element. -/
def parseElemsTail : Nat → List Char → Option (JElems × List Char)
  | 0, _ => none
  | fuel + 1, cs =>
    match cs with
    | [] => none
    | c :: r =>
      if c = ']' then some (.enil, r)
      else if c = ',' then
        match parseV fuel r with
        | some (v, r1) =>
          match parseElemsTail fuel r1 with
          | some (es, r2) => some (.econs v es, r2)
          | none => none
        | none => none
      else none
end

mutual
/-- Node count of a value, a lower bound on the parser fuel. -/
def sizeV : JVal → Nat
  | .jstr _ => 1
  | .jint _ => 1
  | .jbool _ => 1
  | .jmap ms => sizeM ms + 1
  | .jarr es => sizeE es + 1
/-- Node count of mapping members. -/
def sizeM : JMembers → Nat
  | .mnil => 1
  | .mcons _ v r => sizeV v + sizeM r + 1
/-- Node count of sequence elements. -/
def sizeE : JElems → Nat
  | .enil => 1
  | .econs v r => sizeV v + sizeE r + 1
end

/-- `yaml.Marshal`, modelled from the spec: the flow-style YAML
document, with a space of padding after separators. -/
def yamlMarshal (v : JVal) : List Char := emitV [' '] v

/-- `json.Marshal`, modelled from the spec: the compact JSON
document. -/
def jsonMarshal (v : JVal) : List Char := emitV [] v

/-- `yaml.Unmarshal`, modelled from the spec: parse one value and
require the document to be fully consumed.  The parser fuel
`2 * cs.length + 1` dominates the node count of any value whose
document `cs` is. -/
def yamlUnmarshal (cs : List Char) : Option JVal :=
  match parseV (2 * cs.length + 1) cs with
  | some (v, []) => some v
  | _ => none

/-- `json.Unmarshal`, modelled from the spec. -/
def jsonUnmarshal (cs : List Char) : Option JVal :=
  match parseV (2 * cs.length + 1) cs with
  | some (v, []) => some v
  | _ => none

/-- The marshalling chain of `TestMultiRoundtripParams`: to YAML,
from YAML, to JSON, from JSON, back to YAML. -/
def multiRoundtrip (v : JVal) : Option (List Char) :=
  (yamlUnmarshal (yamlMarshal v)).bind fun v1 =>
    (jsonUnmarshal (jsonMarshal v1)).map fun v2 => yamlMarshal v2

/-! ## Theorems -/

/-- Parsing a string body undoes the escaping. -/
theorem parseStrB_escape (s rest : List Char) :
    parseStrB (escapeChars s ++ '"' :: rest) = some (s, rest) := by
  induction s with
  | nil =>
    unfold escapeChars parseStrB
    simp
  | cons c s ih =>
    by_cases hesc : c = '"' ∨ c = '\\'
    · rw [show escapeChars (c :: s) = '\\' :: c :: escapeChars s from by
        rw [escapeChars, if_pos hesc]]
      unfold parseStrB
      simp [ih]
    · push_neg at hesc
      rw [show escapeChars (c :: s) = c :: escapeChars s from by
        rw [escapeChars, if_neg (by tauto)]]
      unfold parseStrB
      simp [hesc.1, hesc.2, ih]

/-- A decimal digit character is distinct from every structural
character of the two formats. -/
theorem isDigitCh_ne (c : Char) (h : isDigitCh c = true) :
    c ≠ ' ' ∧ c ≠ ']' ∧ c ≠ ',' ∧ c ≠ '"' ∧ c ≠ '{' ∧ c ≠ '[' ∧
    c ≠ 't' ∧ c ≠ 'f' ∧ c ≠ '-' ∧ c ≠ '}' ∧ c ≠ ':' := by
  refine ⟨?_, ?_, ?_, ?_, ?_, ?_, ?_, ?_, ?_, ?_, ?_⟩ <;>
    (rintro rfl; revert h; decide)

/-- `digitToChar` produces a digit character. -/
theorem isDigitCh_digitToChar (d : Nat) (h : d < 10) :
    isDigitCh (digitToChar d) = true := by
  interval_cases d <;> decide

/-- `charToDigit` undoes `digitToChar` on digit values. -/
theorem charToDigit_digitToChar (d : Nat) (h : d < 10) :
    charToDigit (digitToChar d) = d := by
  interval_cases d <;> decide

/-- Fold a digit character run as the corresponding digit values. -/
theorem charsToNat_map_digits (L : List Nat) (acc : Nat) (h : ∀ d ∈ L, d < 10) :
    List.foldl (fun a c => 10 * a + charToDigit c) acc (L.map digitToChar) =
      List.foldl (fun a d => 10 * a + d) acc L := by
  induction L generalizing acc with
  | nil => rfl
  | cons d L ih =>
    simp only [List.map_cons, List.foldl_cons]
    rw [charToDigit_digitToChar d (h d (List.mem_cons_self d L))]
    exact ih _ (fun x hx => h x (List.mem_cons_of_mem _ hx))

/-- Folding most-significant-first digits computes the number. -/
theorem foldl_base10_reverse (L : List Nat) (acc : Nat) :
    List.foldl (fun a d => 10 * a + d) acc L.reverse =
      acc * 10 ^ L.length + Nat.ofDigits 10 L := by
  induction L generalizing acc with
  | nil => simp
  | cons d L ih =>
    simp only [List.reverse_cons, List.foldl_append, List.foldl_cons, List.foldl_nil,
      List.length_cons, Nat.ofDigits_cons, ih]
    ring

/-- The decimal digits of a natural number denote it. -/
theorem charsToNat_natDigits (n : Nat) : charsToNat (natDigits n) = n := by
  unfold natDigits
  by_cases h : n = 0
  · subst h
    decide
  · rw [if_neg h]
    unfold charsToNat
    rw [charsToNat_map_digits _ _
      (fun d hd => Nat.digits_lt_base (by norm_num) (List.mem_reverse.mp hd))]
    rw [foldl_base10_reverse]
    simp [Nat.ofDigits_digits]

/-- The decimal digits of a natural number are non-empty and start
with a digit character. -/
theorem natDigits_cons (n : Nat) :
    ∃ c t, natDigits n = c :: t ∧ isDigitCh c = true := by
  unfold natDigits
  by_cases h : n = 0
  · exact ⟨'0', [], by simp [h], by decide⟩
  · rw [if_neg h]
    have hne : (Nat.digits 10 n).reverse ≠ [] := by
      simp [Nat.digits_ne_nil_iff_ne_zero, h]
    cases hd : (Nat.digits 10 n).reverse with
    | nil => exact absurd hd hne
    | cons d t =>
      refine ⟨digitToChar d, t.map digitToChar, by simp [hd], ?_⟩
      have : d ∈ Nat.digits 10 n := by
        rw [← List.mem_reverse, hd]
        exact List.mem_cons_self d t
      exact isDigitCh_digitToChar d (Nat.digits_lt_base (by norm_num) this)

/-- Every character of the decimal digits is a digit character. -/
theorem natDigits_all (n : Nat) : ∀ c ∈ natDigits n, isDigitCh c = true := by
  unfold natDigits
  by_cases h : n = 0
  · simp [h]
    decide
  · rw [if_neg h]
    intro c hc
    obtain ⟨d, hd, rfl⟩ := List.mem_map.mp hc
    exact isDigitCh_digitToChar d
      (Nat.digits_lt_base (by norm_num) (List.mem_reverse.mp hd))

/-- Splitting digits off an emitted digit run followed by a
non-digit returns the run and the remainder. -/
theorem takeDigits_append (ds rest : List Char)
    (h : ∀ c ∈ ds, isDigitCh c = true) (hr : headNotDigit rest = true) :
    takeDigits (ds ++ rest) = (ds, rest) := by
  induction ds with
  | nil =>
    cases rest with
    | nil => rfl
    | cons c t =>
      simp only [headNotDigit, Bool.not_eq_true'] at hr
      simp only [List.nil_append]
      unfold takeDigits
      simp [hr]
  | cons c ds ih =>
    simp only [List.cons_append]
    unfold takeDigits
    rw [if_pos (h c (List.mem_cons_self c ds))]
    rw [ih (fun x hx => h x (List.mem_cons_of_mem _ hx))]

/-- Skipping spaces consumes exactly the padding in front of a
document that does not begin with a space. -/
theorem skipSpaces_pad (sp cs : List Char) (hsp : padOk sp = true)
    (hcs : ∀ t, cs ≠ ' ' :: t) : skipSpaces (sp ++ cs) = cs := by
  induction sp with
  | nil =>
    simp only [List.nil_append]
    cases cs with
    | nil => rfl
    | cons c t =>
      unfold skipSpaces
      rw [if_neg]
      intro hcEq
      exact hcs t (by rw [hcEq])
  | cons s sp ih =>
    simp only [padOk, List.all_cons, Bool.and_eq_true, beq_iff_eq] at hsp
    obtain ⟨hs, hsp2⟩ := hsp
    subst hs
    simp only [List.cons_append]
    unfold skipSpaces
    rw [if_pos rfl]
    exact ih (by simpa [padOk] using hsp2)

/-- The document of a value is non-empty and starts with a character
that is neither a space, nor a closing bracket, nor a comma. -/
theorem emitV_cons (pad : List Char) (v : JVal) :
    ∃ c t, emitV pad v = c :: t ∧ c ≠ ' ' ∧ c ≠ ']' ∧ c ≠ ',' := by
  cases v with
  | jstr s => exact ⟨'"', _, rfl, by decide, by decide, by decide⟩
  | jint n =>
    by_cases hn : n < 0
    · refine ⟨'-', natDigits n.natAbs, ?_, by decide, by decide, by decide⟩
      simp [emitV, emitInt, hn]
    · obtain ⟨c, t, hct, hc⟩ := natDigits_cons n.toNat
      obtain ⟨h1, h2, h3, _⟩ := isDigitCh_ne c hc
      exact ⟨c, t, by simp [emitV, emitInt, hn, hct], h1, h2, h3⟩
  | jbool b =>
    cases b
    · exact ⟨'f', _, rfl, by decide, by decide, by decide⟩
    · exact ⟨'t', _, rfl, by decide, by decide, by decide⟩
  | jmap ms => exact ⟨'{', _, rfl, by decide, by decide, by decide⟩
  | jarr es => exact ⟨'[', _, rfl, by decide, by decide, by decide⟩

/-- The document after the first mapping member never starts with a
digit. -/
theorem headNotDigit_emitMemsTail (pad : List Char) (m : JMembers)
    (rest : List Char) : headNotDigit (emitMemsTail pad m ++ rest) = true := by
  cases m <;> simp [emitMemsTail, headNotDigit, isDigitCh]

/-- The document after the first sequence element never starts with a
digit. -/
theorem headNotDigit_emitElemsTail (pad : List Char) (e : JElems)
    (rest : List Char) : headNotDigit (emitElemsTail pad e ++ rest) = true := by
  cases e <;> simp [emitElemsTail, headNotDigit, isDigitCh]

/-- Node counts are positive. -/
theorem size_pos :
    (∀ v : JVal, 1 ≤ sizeV v) ∧ (∀ m : JMembers, 1 ≤ sizeM m) ∧
    (∀ e : JElems, 1 ≤ sizeE e) := by
  refine ⟨fun v => ?_, fun m => ?_, fun e => ?_⟩
  · cases v <;> simp [sizeV]
  · cases m <;> simp [sizeM]
  · cases e <;> simp [sizeE]

/-- C1: a call to `ReadToEnd` on a file whose size at open time is
strictly less than the remembered start offset resets the reading
position to 0, reports offset 0 via the messenger right after
reporting the stat size and before any scanning event, and then
behaves exactly like a call that starts at offset 0: same scan
events, same outcome, same final position and same trailing entry. -/
theorem c1_truncation_reset (fuel : Nat) (content : List Char)
    (startOffset lastSeen : Nat) (split : SplitFunc) (maxLog : Nat)
    (cancelAt : Option Nat)
    (h : content.length < startOffset) (h0 : ctxDone cancelAt 0 = false) :
    (readToEnd fuel content startOffset lastSeen split maxLog cancelAt).eff = 0 ∧
    (readToEnd fuel content startOffset lastSeen split maxLog cancelAt).events =
      Event.setLastSeenFileSize content.length :: Event.setOffset 0 ::
        (readToEnd fuel content 0 lastSeen split maxLog cancelAt).events.tail ∧
    (readToEnd fuel content startOffset lastSeen split maxLog cancelAt).outcome =
      (readToEnd fuel content 0 lastSeen split maxLog cancelAt).outcome ∧
    (readToEnd fuel content startOffset lastSeen split maxLog cancelAt).finalPos =
      (readToEnd fuel content 0 lastSeen split maxLog cancelAt).finalPos ∧
    (readToEnd fuel content startOffset lastSeen split maxLog cancelAt).trailingEntry =
      (readToEnd fuel content 0 lastSeen split maxLog cancelAt).trailingEntry := by
  simp [readToEnd, h0, h]

/-- C1 witness: a concrete truncated file (size 2, remembered offset
5) evaluated through the theorem. -/
theorem c1_truncation_reset_witness :
    (readToEnd 2 ['a', 'b'] 5 2 splitWhole 10 none).eff = 0 ∧
    (readToEnd 2 ['a', 'b'] 5 2 splitWhole 10 none).events =
      Event.setLastSeenFileSize 2 :: Event.setOffset 0 ::
        (readToEnd 2 ['a', 'b'] 0 2 splitWhole 10 none).events.tail := by
  have h := c1_truncation_reset 2 ['a', 'b'] 5 2 splitWhole 10 none
    (by decide) (by decide)
  exact ⟨h.1, h.2.1⟩

/-- C2: whenever the file is opened, the deferred trailing-bytes
reader emits the remaining bytes of the file as one final entry
exactly when the scan consumed no byte (final position equal to the
offset the scan started from), the final position is still before the
end of the file, and the last seen size equals the stat size (the
file has not grown since the previous reader exited); otherwise no
trailing entry is emitted.  Any emitted trailing entry also appears
as a written entry among the events. -/
theorem c2_trailing_emission (fuel : Nat) (content : List Char)
    (startOffset lastSeen : Nat) (split : SplitFunc) (maxLog : Nat)
    (cancelAt : Option Nat) (h0 : ctxDone cancelAt 0 = false) :
    (readToEnd fuel content startOffset lastSeen split maxLog cancelAt).trailingEntry =
      (if (readToEnd fuel content startOffset lastSeen split maxLog cancelAt).finalPos <
            content.length ∧
          (readToEnd fuel content startOffset lastSeen split maxLog cancelAt).finalPos =
            (readToEnd fuel content startOffset lastSeen split maxLog cancelAt).eff ∧
          lastSeen = content.length then
        some (content.drop
          (readToEnd fuel content startOffset lastSeen split maxLog cancelAt).finalPos)
      else none) ∧
    (∀ msg,
      (readToEnd fuel content startOffset lastSeen split maxLog cancelAt).trailingEntry =
        some msg →
      Event.writeEntry msg ∈
        (readToEnd fuel content startOffset lastSeen split maxLog cancelAt).events) := by
  constructor
  · simp [readToEnd, h0]
  · intro msg hmsg
    simp only [readToEnd, h0, Bool.false_eq_true, if_false] at hmsg ⊢
    set eff := if content.length < startOffset then 0 else startOffset with heff
    split at hmsg
    · rename_i hcond
      rw [Option.some_inj] at hmsg
      subst hmsg
      simp [hcond, hcond.2.1 ▸ hcond.1]
    · simp at hmsg

/-- C2 witness: a file of two bytes with a split function that never
produces a frame, at start offset 0 with an unchanged last seen size,
emits the whole file as the trailing entry. -/
theorem c2_trailing_emission_witness :
    (readToEnd 1 ['a', 'b'] 0 2 splitWhole 0 none).trailingEntry =
      (if (readToEnd 1 ['a', 'b'] 0 2 splitWhole 0 none).finalPos < 2 ∧
          (readToEnd 1 ['a', 'b'] 0 2 splitWhole 0 none).finalPos =
            (readToEnd 1 ['a', 'b'] 0 2 splitWhole 0 none).eff ∧
          2 = 2 then
        some (['a', 'b'].drop (readToEnd 1 ['a', 'b'] 0 2 splitWhole 0 none).finalPos)
      else none) := by
  have h := c2_trailing_emission 1 ['a', 'b'] 0 2 splitWhole 0 none (by decide)
  exact h.1

/-- C3: when a `scanner.Scan()` call fails because the buffer filled
up without producing a token (`bufio.ErrTooLong`, the token exceeding
`max_log_size`), the scan loop stops immediately without emitting any
further event and returns the descriptive error whose text instructs
to increase `max_log_size` or ensure that multiline regex patterns
terminate; and the outcome returned by `ReadToEnd` is the outcome of
its scan loop. -/
theorem c3_too_long_error (fuel : Nat) (content : List Char)
    (startOffset lastSeen : Nat) (split : SplitFunc) (maxLog : Nat)
    (cancelAt : Option Nat) :
    (∀ pos checkIdx empties pos',
      ctxDone cancelAt checkIdx = false →
      scanOnce content split maxLog (content.length + 1) pos empties =
        some (ScanOut.tooLongOut pos') →
      scanLoop content split maxLog cancelAt (fuel + 1) pos checkIdx empties =
        ([], pos',
          Outcome.failed "log entry too large"
            "increase max_log_size or ensure that multiline regex patterns terminate")) ∧
    (ctxDone cancelAt 0 = false →
      (readToEnd fuel content startOffset lastSeen split maxLog cancelAt).outcome =
        (scanLoop content split maxLog cancelAt fuel
          (if content.length < startOffset then 0 else startOffset) 1 0).2.2) := by
  constructor
  · intro pos checkIdx empties pos' hctx hscan
    simp [scanLoop, hctx, hscan]
  · intro h0
    simp [readToEnd, h0]

/-- C3 witness: a three-byte file with `max_log_size = 2` and a split
function that never produces a token makes the scanner fail with the
descriptive too-long error. -/
theorem c3_too_long_error_witness :
    scanLoop ['a', 'b', 'c'] splitNever 2 none 1 0 1 0 =
      ([], 0,
        Outcome.failed "log entry too large"
          "increase max_log_size or ensure that multiline regex patterns terminate") ∧
    (readToEnd 0 ['a', 'b', 'c'] 7 9 splitNever 2 none).outcome =
      (scanLoop ['a', 'b', 'c'] splitNever 2 none 0 0 1 0).2.2 := by
  have h := c3_too_long_error 0 ['a', 'b', 'c'] 7 9 splitNever 2 none
  refine ⟨h.1 0 1 0 0 (by decide) (by decide), ?_⟩
  have h2 := h.2 (by decide)
  simpa using h2

/-- Helper: a non-empty event list built by `readToEnd` always ends
in its last explicit element. -/
theorem events_end_concat (x : Event) (a b c : List Event) :
    ∃ pre, x :: (a ++ b ++ c ++ [Event.finishedReading]) =
      pre ++ [Event.finishedReading] :=
  ⟨x :: (a ++ b ++ c), by simp⟩

/-- Parsing inverts emission: with enough fuel, parsing an emitted
document (preceded by padding and followed by any remainder that
does not begin with a digit) returns the emitted value and the
remainder, for all five mutual parse functions. -/
theorem parse_emit_all (fuel : Nat) :
    (∀ (pad sp : List Char) (v : JVal) (rest : List Char),
      padOk pad = true → padOk sp = true → sizeV v ≤ fuel →
      headNotDigit rest = true →
      parseV fuel (sp ++ emitV pad v ++ rest) = some (v, rest)) ∧
    (∀ (pad : List Char) (ms : JMembers) (rest : List Char),
      padOk pad = true → sizeM ms ≤ fuel →
      parseMems fuel (emitMems pad ms ++ rest) = some (ms, rest)) ∧
    (∀ (pad : List Char) (ms : JMembers) (rest : List Char),
      padOk pad = true → sizeM ms ≤ fuel →
      parseMemsTail fuel (emitMemsTail pad ms ++ rest) = some (ms, rest)) ∧
    (∀ (pad : List Char) (es : JElems) (rest : List Char),
      padOk pad = true → sizeE es ≤ fuel →
      parseElems fuel (emitElems pad es ++ rest) = some (es, rest)) ∧
    (∀ (pad : List Char) (es : JElems) (rest : List Char),
      padOk pad = true → sizeE es ≤ fuel →
      parseElemsTail fuel (emitElemsTail pad es ++ rest) = some (es, rest)) := by
  induction fuel with
  | zero =>
    refine ⟨fun pad sp v rest _ _ hsz _ => absurd hsz ?_,
            fun pad ms rest _ hsz => absurd hsz ?_,
            fun pad ms rest _ hsz => absurd hsz ?_,
            fun pad es rest _ hsz => absurd hsz ?_,
            fun pad es rest _ hsz => absurd hsz ?_⟩
    · have := size_pos.1 v
      omega
    · have := size_pos.2.1 ms
      omega
    · have := size_pos.2.1 ms
      omega
    · have := size_pos.2.2 es
      omega
    · have := size_pos.2.2 es
      omega
  | succ f ih =>
    obtain ⟨ihV, ihM, ihMT, ihE, ihET⟩ := ih
    refine ⟨?_, ?_, ?_, ?_, ?_⟩
    · -- parseV
      intro pad sp v rest hpad hsp hsz hrest
      have hns : ∀ t, emitV pad v ++ rest ≠ ' ' :: t := by
        obtain ⟨c0, t0, hct, hc0sp, _, _⟩ := emitV_cons pad v
        intro t hEq
        rw [hct, List.cons_append] at hEq
        injection hEq with h1 _
        exact hc0sp h1
      have hskip := skipSpaces_pad sp _ hsp hns
      rw [List.append_assoc]
      simp only [parseV]
      rw [hskip]
      cases v with
      | jstr s =>
        simp [emitV, List.append_assoc, parseStrB_escape]
      | jint n =>
        by_cases hn : n < 0
        · have hval : charsToNat (natDigits n.natAbs) = n.natAbs :=
            charsToNat_natDigits _
          have hneg : (-(n.natAbs : Int)) = n := by omega
          obtain ⟨d, t, hdt, hd⟩ := natDigits_cons n.natAbs
          have htake := takeDigits_append (natDigits n.natAbs) rest
            (natDigits_all _) hrest
          rw [hdt] at htake hval
          rw [List.cons_append] at htake
          simp [emitV, emitInt, hn, htake, hdt, hval]
          rw [abs_of_neg hn, neg_neg]
        · have hval : charsToNat (natDigits n.toNat) = n.toNat :=
            charsToNat_natDigits _
          have hpos : ((n.toNat : Nat) : Int) = n := by omega
          obtain ⟨d, t, hdt, hd⟩ := natDigits_cons n.toNat
          obtain ⟨_, _, _, hq, hbr, hsq, ht, hf, hm, _, _⟩ := isDigitCh_ne d hd
          have htake := takeDigits_append (natDigits n.toNat) rest
            (natDigits_all _) hrest
          rw [hdt] at htake hval
          rw [List.cons_append] at htake
          simp [emitV, emitInt, hn, hdt, hq, hbr, hsq, ht, hf, hm, hd, htake,
            hval, hpos]
      | jbool b =>
        cases b <;> simp [emitV]
      | jmap ms =>
        have hms : sizeM ms ≤ f := by
          simp only [sizeV] at hsz
          omega
        simp [emitV, ihM pad ms rest hpad hms]
      | jarr es =>
        have hes : sizeE es ≤ f := by
          simp only [sizeV] at hsz
          omega
        simp [emitV, ihE pad es rest hpad hes]
    · -- parseMems
      intro pad ms rest hpad hsz
      cases ms with
      | mnil => simp [emitMems, parseMems]
      | mcons k v r =>
        have hv : sizeV v ≤ f := by
          have := size_pos.2.1 r
          simp only [sizeM] at hsz
          omega
        have hr : sizeM r ≤ f := by
          have := size_pos.1 v
          simp only [sizeM] at hsz
          omega
        have hV := ihV pad pad v (emitMemsTail pad r ++ rest) hpad hpad hv
          (headNotDigit_emitMemsTail pad r rest)
        simp only [List.append_assoc] at hV
        have hT := ihMT pad r rest hpad hr
        simp [emitMems, parseMems, List.append_assoc, parseStrB_escape, hV, hT]
    · -- parseMemsTail
      intro pad ms rest hpad hsz
      cases ms with
      | mnil => simp [emitMemsTail, parseMemsTail]
      | mcons k v r =>
        have hv : sizeV v ≤ f := by
          have := size_pos.2.1 r
          simp only [sizeM] at hsz
          omega
        have hr : sizeM r ≤ f := by
          have := size_pos.1 v
          simp only [sizeM] at hsz
          omega
        have hns : ∀ t,
            '"' :: (escapeChars k ++ '"' :: ':' ::
              (pad ++ emitV pad v ++ emitMemsTail pad r)) ++ rest ≠ ' ' :: t := by
          intro t hEq
          rw [List.cons_append] at hEq
          injection hEq with h1 _
          exact absurd h1 (by decide)
        have hskip := skipSpaces_pad pad _ hpad hns
        have hV := ihV pad pad v (emitMemsTail pad r ++ rest) hpad hpad hv
          (headNotDigit_emitMemsTail pad r rest)
        simp only [List.append_assoc] at hV
        have hT := ihMT pad r rest hpad hr
        simp only [emitMemsTail, parseMemsTail, List.cons_append, List.append_assoc]
        rw [show (parseMemsTail f) = parseMemsTail f from rfl]
        simp only [List.cons_append, List.append_assoc] at hskip
        simp [hskip, List.append_assoc, parseStrB_escape, hV, hT]
    · -- parseElems
      intro pad es rest hpad hsz
      cases es with
      | enil => simp [emitElems, parseElems]
      | econs v r =>
        have hv : sizeV v ≤ f := by
          have := size_pos.2.2 r
          simp only [sizeE] at hsz
          omega
        have hr : sizeE r ≤ f := by
          have := size_pos.1 v
          simp only [sizeE] at hsz
          omega
        obtain ⟨c0, t0, hct, _, hc0br, _⟩ := emitV_cons pad v
        have hV := ihV pad [] v (emitElemsTail pad r ++ rest) hpad rfl hv
          (headNotDigit_emitElemsTail pad r rest)
        rw [List.nil_append] at hV
        have hT := ihET pad r rest hpad hr
        simp only [emitElems, List.append_assoc]
        rw [hct, List.cons_append]
        simp only [parseElems]
        rw [if_neg hc0br]
        rw [hct, List.cons_append] at hV
        simp [hV, hT]
    · -- parseElemsTail
      intro pad es rest hpad hsz
      cases es with
      | enil => simp [emitElemsTail, parseElemsTail]
      | econs v r =>
        have hv : sizeV v ≤ f := by
          have := size_pos.2.2 r
          simp only [sizeE] at hsz
          omega
        have hr : sizeE r ≤ f := by
          have := size_pos.1 v
          simp only [sizeE] at hsz
          omega
        have hV := ihV pad pad v (emitElemsTail pad r ++ rest) hpad hpad hv
          (headNotDigit_emitElemsTail pad r rest)
        simp only [List.append_assoc] at hV
        have hT := ihET pad r rest hpad hr
        simp [emitElemsTail, parseElemsTail, List.append_assoc, hV, hT]

/-- The decimal representation of an integer is non-empty. -/
theorem emitInt_len_pos (n : Int) : 1 ≤ (emitInt n).length := by
  unfold emitInt
  split
  · simp
  · obtain ⟨c, t, h, _⟩ := natDigits_cons n.toNat
    simp [h]

/-- Node counts are bounded by twice the emitted document length:
the fuel `2 * length + 1` always suffices for the parser. -/
theorem size_le_emit (n : Nat) :
    (∀ (pad : List Char) (v : JVal), sizeV v ≤ n →
      sizeV v ≤ 2 * (emitV pad v).length - 1) ∧
    (∀ (pad : List Char) (ms : JMembers), sizeM ms ≤ n →
      sizeM ms ≤ 2 * (emitMems pad ms).length - 1 ∧
      sizeM ms ≤ 2 * (emitMemsTail pad ms).length - 1) ∧
    (∀ (pad : List Char) (es : JElems), sizeE es ≤ n →
      sizeE es ≤ 2 * (emitElems pad es).length - 1 ∧
      sizeE es ≤ 2 * (emitElemsTail pad es).length - 1) := by
  induction n with
  | zero =>
    refine ⟨fun pad v hsz => absurd hsz ?_, fun pad ms hsz => absurd hsz ?_,
            fun pad es hsz => absurd hsz ?_⟩
    · have := size_pos.1 v
      omega
    · have := size_pos.2.1 ms
      omega
    · have := size_pos.2.2 es
      omega
  | succ k ih =>
    obtain ⟨ihV, ihM, ihE⟩ := ih
    refine ⟨?_, ?_, ?_⟩
    · intro pad v hsz
      cases v with
      | jstr s =>
        simp [sizeV, emitV]
        omega
      | jint n =>
        have := emitInt_len_pos n
        simp only [sizeV, emitV]
        omega
      | jbool b => cases b <;> simp [sizeV, emitV]
      | jmap ms =>
        have hm : sizeM ms ≤ k := by
          simp only [sizeV] at hsz
          omega
        have := (ihM pad ms hm).1
        simp only [sizeV, emitV, List.length_cons]
        omega
      | jarr es =>
        have he : sizeE es ≤ k := by
          simp only [sizeV] at hsz
          omega
        have := (ihE pad es he).1
        simp only [sizeV, emitV, List.length_cons]
        omega
    · intro pad ms hsz
      cases ms with
      | mnil => simp [sizeM, emitMems, emitMemsTail]
      | mcons k0 v r =>
        have hv : sizeV v ≤ k := by
          have := size_pos.2.1 r
          simp only [sizeM] at hsz
          omega
        have hr : sizeM r ≤ k := by
          have := size_pos.1 v
          simp only [sizeM] at hsz
          omega
        have h1 := ihV pad v hv
        have h2 := (ihM pad r hr).2
        have hv1 := size_pos.1 v
        have hr1 := size_pos.2.1 r
        constructor
        · simp only [sizeM, emitMems, List.length_cons, List.length_append]
          omega
        · simp only [sizeM, emitMemsTail, List.length_cons, List.length_append]
          omega
    · intro pad es hsz
      cases es with
      | enil => simp [sizeE, emitElems, emitElemsTail]
      | econs v r =>
        have hv : sizeV v ≤ k := by
          have := size_pos.2.2 r
          simp only [sizeE] at hsz
          omega
        have hr : sizeE r ≤ k := by
          have := size_pos.1 v
          simp only [sizeE] at hsz
          omega
        have h1 := ihV pad v hv
        have h2 := (ihE pad r hr).2
        have hv1 := size_pos.1 v
        have hr1 := size_pos.2.2 r
        have hlv : 1 ≤ (emitV pad v).length := by
          obtain ⟨c, t, hct, _⟩ := emitV_cons pad v
          simp [hct]
        have hlt : 1 ≤ (emitElemsTail pad r).length := by
          cases r <;> simp [emitElemsTail]
        constructor
        · simp only [sizeE, emitElems, List.length_append]
          omega
        · simp only [sizeE, emitElemsTail, List.length_cons, List.length_append]
          omega

/-- Unmarshalling a marshalled YAML document returns the value. -/
theorem yamlUnmarshal_marshal (v : JVal) :
    yamlUnmarshal (yamlMarshal v) = some v := by
  have hsz : sizeV v ≤ 2 * (emitV [' '] v).length + 1 := by
    have := (size_le_emit (sizeV v)).1 [' '] v le_rfl
    omega
  have h := (parse_emit_all (2 * (emitV [' '] v).length + 1)).1
    [' '] [] v [] (by decide) rfl hsz rfl
  simp only [List.nil_append, List.append_nil] at h
  simp [yamlUnmarshal, yamlMarshal, h]

/-- Unmarshalling a marshalled JSON document returns the value. -/
theorem jsonUnmarshal_marshal (v : JVal) :
    jsonUnmarshal (jsonMarshal v) = some v := by
  have hsz : sizeV v ≤ 2 * (emitV [] v).length + 1 := by
    have := (size_le_emit (sizeV v)).1 [] v le_rfl
    omega
  have h := (parse_emit_all (2 * (emitV [] v).length + 1)).1
    [] [] v [] rfl rfl hsz rfl
  simp only [List.nil_append, List.append_nil] at h
  simp [jsonUnmarshal, jsonMarshal, h]

/-- C9: for every parameter value composed of strings, ints, bools,
nested mappings and sequences thereof, marshalling to YAML,
unmarshalling, marshalling to JSON, unmarshalling, and marshalling to
YAML again produces a second YAML document byte-identical to the
first. -/
theorem c9_yaml_json_roundtrip (v : JVal) :
    multiRoundtrip v = some (yamlMarshal v) := by
  simp [multiRoundtrip, yamlUnmarshal_marshal, jsonUnmarshal_marshal]

/-- C4 counterexample: the claim states that `Build` succeeds
whenever no `multiline` block is present, but the default
configuration (`NewInputConfig`) has no `multiline` block and
`Build` still fails on it, because its `include` list is empty. -/
theorem c4_counterexample :
    NewInputConfig.multiline = none ∧
    buildInputConfig true (fun _ => true) (fun _ => true) (fun _ => true)
      NewInputConfig = .error "required argument include is empty" := by
  constructor
  · rfl
  · rfl

/-- C4, amended: with a `multiline` block, `Build` returns an error
when both `line_start_pattern` and `line_end_pattern` are set, and
also when neither is set; without a `multiline` block, and when the
rest of the configuration is valid (non-empty `include` whose globs
parse, parseable `exclude` globs, known encoding, `start_at` either
`beginning` or `end`, and the embedded input config buildable),
`Build` succeeds and selects the default newline split function. -/
theorem c4_multiline_validation :
    (∀ (helperOk : Bool) (globOk ianaOk regexOk : String → Bool)
        (c : InputConfig) (m : MultilineConfig),
      c.multiline = some m → m.lineStartPattern ≠ "" → m.lineEndPattern ≠ "" →
      ∃ e, buildInputConfig helperOk globOk ianaOk regexOk c = .error e) ∧
    (∀ (helperOk : Bool) (globOk ianaOk regexOk : String → Bool)
        (c : InputConfig) (m : MultilineConfig),
      c.multiline = some m → m.lineStartPattern = "" → m.lineEndPattern = "" →
      ∃ e, buildInputConfig helperOk globOk ianaOk regexOk c = .error e) ∧
    (∀ (globOk ianaOk regexOk : String → Bool) (c : InputConfig)
        (enc : EncodingKind),
      c.multiline = none →
      c.includes ≠ [] →
      c.includes.all globOk = true →
      c.excludes.all globOk = true →
      lookupEncoding ianaOk c.encoding = .ok enc →
      (c.startAt = "beginning" ∨ c.startAt = "end") →
      ∃ op, buildInputConfig true globOk ianaOk regexOk c = .ok op ∧
        op.splitKind = .newline enc) := by
  refine ⟨?_, ?_, ?_⟩
  · intro helperOk globOk ianaOk regexOk c m hm h1 h2
    have hsf : ∀ enc, getSplitFunc regexOk enc c =
        .error "only one of line_start_pattern or line_end_pattern can be set" := by
      intro enc
      simp [getSplitFunc, hm, h1, h2]
    simp only [buildInputConfig]
    repeat' split
    all_goals first
      | exact ⟨_, rfl⟩
      | simp_all
  · intro helperOk globOk ianaOk regexOk c m hm h1 h2
    have hsf : ∀ enc, getSplitFunc regexOk enc c =
        .error "one of line_start_pattern or line_end_pattern must be set" := by
      intro enc
      simp [getSplitFunc, hm, h1, h2]
    simp only [buildInputConfig]
    repeat' split
    all_goals first
      | exact ⟨_, rfl⟩
      | simp_all
  · intro globOk ianaOk regexOk c enc hm hinc hga hgb henc hstart
    have hsf : getSplitFunc regexOk enc c = .ok (.newline enc) := by
      simp [getSplitFunc, hm]
    have hne : c.includes.isEmpty = false := by
      cases h : c.includes with
      | nil => exact absurd h hinc
      | cons a l => simp [h]
    rcases hstart with hs | hs <;>
      simp [buildInputConfig, hne, hga, hgb, henc, hsf, hs]

/-- C4 witness: the amended theorem applied to concrete
configurations exercising the both-set error, the neither-set error
and the valid default-newline success. -/
theorem c4_multiline_validation_witness :
    (∃ e, buildInputConfig true (fun _ => true) (fun _ => true) (fun _ => true)
      { NewInputConfig with
          includes := ["*.log"]
          multiline := some ⟨"a", "b"⟩ } = .error e) ∧
    (∃ e, buildInputConfig true (fun _ => true) (fun _ => true) (fun _ => true)
      { NewInputConfig with
          includes := ["*.log"]
          multiline := some ⟨"", ""⟩ } = .error e) ∧
    (∃ op, buildInputConfig true (fun _ => true) (fun _ => true) (fun _ => true)
      { NewInputConfig with includes := ["*.log"] } = .ok op ∧
        op.splitKind = .newline .nopEnc) := by
  refine ⟨?_, ?_, ?_⟩
  · exact c4_multiline_validation.1 true (fun _ => true) (fun _ => true) (fun _ => true)
      { NewInputConfig with includes := ["*.log"], multiline := some ⟨"a", "b"⟩ }
      ⟨"a", "b"⟩ rfl (by decide) (by decide)
  · exact c4_multiline_validation.2.1 true (fun _ => true) (fun _ => true) (fun _ => true)
      { NewInputConfig with includes := ["*.log"], multiline := some ⟨"", ""⟩ }
      ⟨"", ""⟩ rfl rfl rfl
  · exact c4_multiline_validation.2.2 (fun _ => true) (fun _ => true) (fun _ => true)
      { NewInputConfig with includes := ["*.log"] } .nopEnc rfl (by decide) rfl rfl
      (by rfl) (Or.inr rfl)

/-- C5 counterexample: the claim quantifies over plugin bodies whose
configs have no explicit `output`, yet the build steps of the spec
route a body config without `output` that is not last in the body to
the NEXT config of the body, not to the sibling of the plugin
instance: with the two-generator body carrying no `output` key,
`gen1` routes to `$.my_plugin.gen2`, so the claimed edge set, in
which every child routes to `$.my_drop`, does not arise. -/
theorem c5_counterexample :
    edgesOf (buildConfigsModel c5RegistryNoOut c5IsSink none c5Config) =
      [("$.my_plugin.gen1", "$.my_plugin.gen2"),
       ("$.my_plugin.gen2", "$.my_drop")] ∧
    edgesOf (buildConfigsModel c5RegistryNoOut c5IsSink none c5Config) ≠
      [("$.my_plugin.gen1", "$.my_drop"),
       ("$.my_plugin.gen2", "$.my_drop")] := by
  constructor
  · rfl
  · decide

/-- C5, amended: when the plugin body configs carry the
`{{ .output }}` placeholder as their `output` (as in the cited test
`TestBuildPipelineDefaultOutputInPlugin`), building the pipeline in
which the plugin instance `my_plugin` is followed by the sibling
`my_drop` routes every child to that sibling: the edges are exactly
`$.my_plugin.gen1 → $.my_drop` and `$.my_plugin.gen2 → $.my_drop`,
and `$.my_drop` itself has no outputs.  A body config with no
`output` at all is instead routed to the next config of the body,
only the last one routing to the sibling. -/
theorem c5_plugin_default_output :
    buildConfigsModel c5Registry c5IsSink none c5Config =
      [⟨"$.my_plugin.gen1", "generate_input", ["$.my_drop"]⟩,
       ⟨"$.my_plugin.gen2", "generate_input", ["$.my_drop"]⟩,
       ⟨"$.my_drop", "drop_output", []⟩] ∧
    edgesOf (buildConfigsModel c5Registry c5IsSink none c5Config) =
      [("$.my_plugin.gen1", "$.my_drop"),
       ("$.my_plugin.gen2", "$.my_drop")] := by
  constructor
  · rfl
  · rfl

/-- C6: plugin parameter validation rejects a parameter that is
required and also carries a default, rejects a default that does not
match the declared parameter type, and rejects an enum default that
is not a member of `valid_values`. -/
theorem c6_parameter_validation :
    (∀ p : PluginParameter, p.required = true → p.dflt.isSome →
      (validateParameter p).isOk = false) ∧
    (∀ (p : PluginParameter) (d : PValue), p.dflt = some d →
      defaultTypeOk p.ptype p.validValues d = false →
      (validateParameter p).isOk = false) ∧
    (∀ (p : PluginParameter) (s : String), p.ptype = .tenum →
      p.dflt = some (.pvstr s) → p.validValues.contains s = false →
      (validateParameter p).isOk = false) := by
  refine ⟨?_, ?_, ?_⟩
  · intro p hreq hd
    rcases hv : p.dflt with _ | d
    · rw [hv] at hd
      cases hd
    · simp only [validateParameter, hv, hreq]
      split
      · rfl
      · split
        · rfl
        · rfl
  · intro p d hv hty
    simp only [validateParameter, hv]
    split
    · rfl
    · split
      · rfl
      · split
        · rfl
        · simp [hty, Except.isOk, Except.toBool]
  · intro p s ht hv hmem
    have hty : defaultTypeOk p.ptype p.validValues (.pvstr s) = false := by
      rw [ht]
      exact hmem
    simp only [validateParameter, hv]
    split
    · rfl
    · split
      · rfl
      · split
        · rfl
        · simp [hty, Except.isOk, Except.toBool]

/-- C6 witness: the theorem applied to the `required_default`,
`int_parameter_default_invalid` and `enum_parameter_default_invalid`
test parameters. -/
theorem c6_parameter_validation_witness :
    (validateParameter ⟨true, .tint, some (.pvint 123), []⟩).isOk = false ∧
    (validateParameter ⟨false, .tint, some (.pvstr "hello"), []⟩).isOk = false ∧
    (validateParameter
      ⟨false, .tenum, some (.pvstr "three"), ["one", "two"]⟩).isOk = false := by
  refine ⟨?_, ?_, ?_⟩
  · exact c6_parameter_validation.1 ⟨true, .tint, some (.pvint 123), []⟩ rfl (by decide)
  · exact c6_parameter_validation.2.1 ⟨false, .tint, some (.pvstr "hello"), []⟩
      (.pvstr "hello") rfl (by decide)
  · exact c6_parameter_validation.2.2 ⟨false, .tenum, some (.pvstr "three"), ["one", "two"]⟩
      "three" rfl rfl (by decide)

/-- C7: an integer sample hits a `{min, max}` matcher exactly when it
lies in the inclusive numeric range after normalizing `min > max` by
swapping; a matcher with swapped bounds hits exactly the same
samples; and in any severity mapping, replacing `{min:120,max:125}`
by `{min:125,max:120}` assigns the same severity to every sample. -/
theorem c7_range_matcher :
    (∀ (a b v : Int), matcherHit (.range a b) (.ints v) =
      (decide (min a b ≤ v) && decide (v ≤ max a b))) ∧
    (∀ (a b : Int) (s : Sample),
      matcherHit (.range a b) s = matcherHit (.range b a) s) ∧
    (∀ (pre post : List (Nat × SevMatcher)) (sev : Nat) (s : Sample),
      sevLookup (pre ++ (sev, .range 120 125) :: post) s =
        sevLookup (pre ++ (sev, .range 125 120) :: post) s) := by
  have hswap : ∀ (a b : Int) (s : Sample),
      matcherHit (.range a b) s = matcherHit (.range b a) s := by
    intro a b s
    cases hv : sampleNum s <;> simp [matcherHit, hv, min_comm, max_comm]
  refine ⟨fun a b v => rfl, hswap, ?_⟩
  intro pre post sev s
  induction pre with
  | nil =>
    simp only [List.nil_append, sevLookup, List.find?]
    rw [hswap 120 125 s]
    cases hm : matcherHit (SevMatcher.range 125 120) s <;> simp [hm]
  | cons p pre ih =>
    simp only [List.cons_append, sevLookup, List.find?] at ih ⊢
    cases hp : matcherHit p.2 s
    · simp only [hp] at ih ⊢
      exact ih
    · simp [hp]

/-- C8: the shorthand `"Nxx"` only parses for `N` between 1 and 5; an
integer sample hits `nxx n` exactly when it lies in
`[n*100, n*100+99]`; a numeric string sample hits exactly as the
integer it denotes; `"2xx"` parses and is hit by the string sample
`"201"`; and an integer sample outside the range is assigned the
severity `Default = 0` by a mapping containing only that matcher. -/
theorem c8_nxx_matcher :
    (∀ (s : String) (n : Nat), parseNxx s = some n → 1 ≤ n ∧ n ≤ 5) ∧
    (∀ (n : Nat) (v : Int), matcherHit (.nxx n) (.ints v) =
      (decide ((n : Int) * 100 ≤ v) && decide (v ≤ (n : Int) * 100 + 99))) ∧
    (∀ (n : Nat) (s : String) (v : Int), strToInt s = some v →
      matcherHit (.nxx n) (.strs s) = matcherHit (.nxx n) (.ints v)) ∧
    (parseNxx "2xx" = some 2 ∧ matcherHit (.nxx 2) (.strs "201") = true) ∧
    (∀ (sev n : Nat) (v : Int), matcherHit (.nxx n) (.ints v) = false →
      sevLookup [(sev, .nxx n)] (.ints v) = 0) := by
  refine ⟨?_, fun n v => rfl, ?_, ⟨by decide, by decide⟩, ?_⟩
  · intro s n h
    simp only [parseNxx] at h
    split at h
    · rename_i d heq
      split at h
      · rename_i hd
        cases h
        omega
      · cases h
    · cases h
  · intro n s v hv
    simp [matcherHit, sampleNum, hv]
  · intro sev n v h
    simp [sevLookup, List.find?, h]

/-- C8 witness: the theorem applied at `"2xx"`, at the string sample
`"201"`, and at the out-of-range integer sample 301. -/
theorem c8_nxx_matcher_witness :
    (1 ≤ 2 ∧ 2 ≤ 5) ∧
    matcherHit (.nxx 2) (.strs "201") = matcherHit (.nxx 2) (.ints 201) ∧
    sevLookup [(60, .nxx 2)] (.ints 301) = 0 := by
  refine ⟨c8_nxx_matcher.1 "2xx" 2 (by decide), ?_, ?_⟩
  · exact c8_nxx_matcher.2.2.1 2 "201" 201 (by decide)
  · exact c8_nxx_matcher.2.2.2.2 60 2 301 (by decide)

/-- C10: a `ReadToEnd` call whose context is already done at entry
returns nil without opening the file and without emitting any entry,
with `FinishedReading` as its only messenger call; whenever the scan
loop observes a done context it returns nil immediately after the
current frame, emitting nothing further; and every run invokes
`FinishedReading` as its last event before returning. -/
theorem c10_cancellation (fuel : Nat) (content : List Char)
    (startOffset lastSeen : Nat) (split : SplitFunc) (maxLog : Nat)
    (cancelAt : Option Nat) :
    readToEnd fuel content startOffset lastSeen split maxLog (some 0) =
      ⟨[Event.finishedReading], Outcome.ok, false, startOffset, startOffset, none⟩ ∧
    (∀ pos checkIdx empties,
      ctxDone cancelAt checkIdx = true →
      scanLoop content split maxLog cancelAt (fuel + 1) pos checkIdx empties =
        ([], pos, Outcome.ok)) ∧
    (∃ pre,
      (readToEnd fuel content startOffset lastSeen split maxLog cancelAt).events =
        pre ++ [Event.finishedReading]) := by
  refine ⟨by simp [readToEnd, ctxDone], ?_, ?_⟩
  · intro pos checkIdx empties hctx
    simp [scanLoop, hctx]
  · by_cases h0 : ctxDone cancelAt 0
    · exact ⟨[], by simp [readToEnd, h0]⟩
    · simp only [readToEnd, h0, Bool.false_eq_true, if_false]
      exact events_end_concat _ _ _ _

/-- C10 witness: the theorem evaluated at a concrete run, showing the
entry-cancelled shape, the loop-cancellation shape and the final
`FinishedReading` event. -/
theorem c10_cancellation_witness :
    readToEnd 3 ['a', 'b'] 1 2 splitWhole 5 (some 0) =
      ⟨[Event.finishedReading], Outcome.ok, false, 1, 1, none⟩ ∧
    scanLoop ['a', 'b'] splitWhole 5 (some 1) 4 0 1 0 = ([], 0, Outcome.ok) := by
  have h := c10_cancellation 3 ['a', 'b'] 1 2 splitWhole 5 (some 1)
  exact ⟨by simpa using h.1, h.2.1 0 1 0 (by decide)⟩

end Stanza
